import Mathlib

/-!
# A model of `UseDatum` (src/src/UseDatum.tsx)

This file gives a shallow embedding of the `UseDatum` factory: the container
state record, the change-detection policy of `setDatum`, the subscriber
registry with its notification loop, and the observer hook's
creation / effect / cleanup lifecycle, together with theorems about them.

The JavaScript value universe is abstracted by an `Env` record holding the
primitives the source closes over: the runtime object test
(`val != null && typeof val === 'object'`), strict equality `===`, and the
external `fast-deep-equal` library (out of scope of the repository, hence a
parameter).  Callbacks registered in the registry are modelled by the
observable behaviour they can exhibit during a notification pass: the set of
registry keys they delete (a subscriber detaching re-entrantly) and whether
they throw.  `setDatum` returns the successor state, the list of emitted
observable events (`onChange` invocations and notify-callback invocations, in
invocation order) and a flag recording whether an exception propagated to the
caller.
-/

namespace UseDatumModel

/-- The primitives of the JavaScript value universe that `UseDatum` closes
over, together with the behaviour of the optional `onChange` callback.
`isObject` is `val != null && typeof val === 'object'`, `refEq` is strict
equality `===`, and `deepequal` is the external `fast-deep-equal/es6/react`
comparison. -/
structure Env (V : Type) where
  isObject : V → Bool
  refEq : V → V → Bool
  deepequal : V → V → Bool
  onChangePresent : Bool
  onChangeThrows : Bool

/-- Observable behaviour of a registered notify-callback when it is invoked
during a notification pass: which registry keys it deletes (a subscriber
detaching as a side effect), and whether it throws. -/
structure Callback where
  detaches : List String
  throws : Bool
deriving DecidableEq

/-- The mutable closure state of one container: the `state` record of the
source (`value`, `subscriberCount`, `changeCount`, `shallow`) together with
the `callbacks` registry, modelled as an association list from subscriber
identity to callback (a JavaScript object keyed by strings). -/
structure ContainerState (V : Type) where
  value : V
  subscriberCount : Nat
  changeCount : Nat
  shallow : Bool
  callbacks : List (String × Callback)
deriving DecidableEq

/-- The state allocated by the `UseDatum` factory: the initial value, zeroed
counters, the configured `shallow` flag, and an empty registry. -/
def initialState {V : Type} (initialValue : V) (shallow : Bool) : ContainerState V :=
  { value := initialValue
    subscriberCount := 0
    changeCount := 0
    shallow := shallow
    callbacks := [] }

/-- `getDatum = () => state.value`. -/
def getDatum {V : Type} (s : ContainerState V) : V :=
  s.value

/-- The argument of `setDatum`: either a plain value or an updater function
(`newValueOrFunction : T | ((prevState: T) => T)`). -/
inductive SetArg (V : Type) where
  | value : V → SetArg V
  | updater : (V → V) → SetArg V

/-- Resolution of the `setDatum` argument: an updater function is invoked
with the current stored value as its sole argument, a plain value is used
directly. -/
def resolveArg {V : Type} : SetArg V → V → V
  | SetArg.value v, _ => v
  | SetArg.updater f, prevState => f prevState

/-- The change-detection policy of `setDatum`:
`let changed = force; if (!changed) { if (state.shallow || !isObject(newValue))
changed = newValue !== state.value; else changed = !deepequal(newValue,
state.value); }`. -/
def computeChanged {V : Type} (env : Env V) (shallow force : Bool)
    (newValue stored : V) : Bool :=
  if force then true
  else if shallow || !env.isObject newValue then !env.refEq newValue stored
  else !env.deepequal newValue stored

/-- The observable events a `setDatum` call can emit, in invocation order:
an `onChange(current, prior)` invocation, or the invocation of the
notify-callback registered under `id`. -/
inductive Event (V : Type) where
  | onChange (current prior : V)
  | notify (id : String)
deriving DecidableEq

/-- Property lookup in the registry object (`callbacks[key]`). -/
def lookupCb (reg : List (String × Callback)) (k : String) : Option Callback :=
  match reg with
  | [] => none
  | (k', cb) :: rest => if k' = k then some cb else lookupCb rest k

/-- Property deletion in the registry object (`delete callbacks[key]`). -/
def eraseKey (reg : List (String × Callback)) (k : String) :
    List (String × Callback) :=
  reg.filter (fun p => p.1 != k)

/-- Deletion of a set of keys, in order. -/
def eraseKeys (reg : List (String × Callback)) (ks : List String) :
    List (String × Callback) :=
  ks.foldl (fun r d => eraseKey r d) reg

/-- Property assignment in the registry object (`callbacks[id] = cb`): an
existing key is overwritten in place, a fresh key is appended in insertion
order. -/
def insertCb (reg : List (String × Callback)) (k : String) (cb : Callback) :
    List (String × Callback) :=
  if reg.any (fun p => p.1 == k) then
    reg.map (fun p => if p.1 == k then (k, cb) else p)
  else
    reg ++ [(k, cb)]

/-- The notification loop `for (const key in callbacks) callbacks[key]()`.
The key list is the enumeration snapshot taken when the loop starts; a key
whose entry has been deleted before it is visited is skipped (JavaScript
`for-in` semantics for properties deleted during enumeration).  Invoking a
callback records a notify event, applies the detachments the callback
performs, and — if the callback throws — aborts the loop with the exception
propagating (final component `true`). -/
def runCallbacks {V : Type} :
    List String → List (String × Callback) →
      List (String × Callback) × List (Event V) × Bool
  | [], reg => (reg, [], false)
  | k :: ks, reg =>
    match lookupCb reg k with
    | none => runCallbacks ks reg
    | some cb =>
      if cb.throws then
        (reg, [Event.notify k], true)
      else
        let reg' := eraseKeys reg cb.detaches
        let r := runCallbacks ks reg'
        (r.1, Event.notify k :: r.2.1, r.2.2)

/-- `setDatum(newValueOrFunction, force = false)`: resolve the next value,
apply the change-detection policy, and on an accepted change increment
`changeCount`, store the new value, invoke `onChange(newValue, prior)` if
present, then run the notification loop.  Returns the successor state, the
emitted events in order, and whether an exception propagated to the caller
(the container itself never throws; only `onChange` or a notify-callback
can). -/
def setDatum {V : Type} (env : Env V) (newValueOrFunction : SetArg V)
    (force : Bool) (s : ContainerState V) :
    ContainerState V × List (Event V) × Bool :=
  let newValue := resolveArg newValueOrFunction s.value
  let changed := computeChanged env s.shallow force newValue s.value
  if changed then
    let prior := s.value
    let s1 := { s with changeCount := s.changeCount + 1, value := newValue }
    if env.onChangePresent && env.onChangeThrows then
      (s1, [Event.onChange newValue prior], true)
    else
      let onEvs := if env.onChangePresent then [Event.onChange newValue prior] else []
      let r := runCallbacks (s1.callbacks.map Prod.fst) s1.callbacks
      ({ s1 with callbacks := r.1 }, onEvs ++ r.2.1, r.2.2)
  else
    (s, [], false)

/-- The subscription record a mounted hook instance keeps in its `useRef`
context: the minted identity and the `changeCount` observed at creation. -/
structure HookCtx where
  id : String
  changeCount : Nat
deriving DecidableEq

/-- The callback a hook registers (`forceRender`): it requests a re-render
of its owner; it neither detaches registry entries nor throws. -/
def hookCallback : Callback :=
  { detaches := [], throws := false }

/-- First render of a hook instance: the `useRef` initializer mints the
identity `String(state.subscriberCount++)` and records the `changeCount`
observed at that moment. -/
def useDatumCreate {V : Type} (s : ContainerState V) :
    ContainerState V × HookCtx :=
  ({ s with subscriberCount := s.subscriberCount + 1 },
   { id := Nat.repr s.subscriberCount, changeCount := s.changeCount })

/-- The `useEffect` body: register `callbacks[id] = forceRender`, then, if
`state.changeCount > context.current.changeCount`, immediately call
`forceRender()` — a value change occurred before the effect ran.  Returns
the successor state and the number of immediate re-render requests. -/
def useDatumEffect {V : Type} (s : ContainerState V) (context : HookCtx) :
    ContainerState V × Nat :=
  let s' := { s with callbacks := insertCb s.callbacks context.id hookCallback }
  (s', if s.changeCount > context.changeCount then 1 else 0)

/-- The `useEffect` cleanup: `delete callbacks[id]`. -/
def useDatumCleanup {V : Type} (s : ContainerState V) (id : String) :
    ContainerState V :=
  { s with callbacks := eraseKey s.callbacks id }

/-- One container operation, for reasoning over whole interaction
sequences. -/
inductive Op (V : Type) where
  | set (arg : SetArg V) (force : Bool)
  | get
  | create
  | effect (context : HookCtx)
  | cleanup (id : String)

/-- Effect of one operation on the container state, with the events it
emits. -/
def step {V : Type} (env : Env V) (s : ContainerState V) :
    Op V → ContainerState V × List (Event V)
  | Op.set arg force => ((setDatum env arg force s).1, (setDatum env arg force s).2.1)
  | Op.get => (s, [])
  | Op.create => ((useDatumCreate s).1, [])
  | Op.effect context => ((useDatumEffect s context).1, [])
  | Op.cleanup id => (useDatumCleanup s id, [])

/-- Run a sequence of operations. -/
def runOps {V : Type} (env : Env V) (ops : List (Op V)) (s : ContainerState V) :
    ContainerState V :=
  ops.foldl (fun s op => (step env s op).1) s

/-- Whether an operation is a `setDatum` call whose change-detection policy
accepts the change (the only source of `changeCount` increments). -/
def opChanged {V : Type} (env : Env V) (op : Op V) (s : ContainerState V) : Bool :=
  match op with
  | Op.set arg force => computeChanged env s.shallow force (resolveArg arg s.value) s.value
  | _ => false

/-- Recognizer for the notify event of a given subscriber identity. -/
def isNotify {V : Type} (d : String) : Event V → Bool
  | Event.notify k => k == d
  | _ => false

/-- How many times the notify-callback registered under `d` was invoked in
an event list. -/
def notifyCount {V : Type} (d : String) (evs : List (Event V)) : Nat :=
  (evs.filter (isNotify d)).length

/-!
## A concrete JavaScript value universe

`setDatum` branches on the *runtime* type of its argument
(`typeof newValueOrFunction === 'function'`), not on the declared value type
`T`.  To reason about that dispatch we instantiate the model at a concrete
universe of JavaScript values, with functions and objects represented by
table indices (reference identity = index equality). -/

/-- A JavaScript runtime value: primitives, an object reference, or a
function reference.  Function behaviour is supplied by a separate table from
references to functions on values. -/
inductive JSVal where
  | undef
  | nullv
  | boolv (b : Bool)
  | numv (n : Int)
  | strv (s : String)
  | objv (addr : Nat)
  | funcv (addr : Nat)
deriving DecidableEq

/-- `val != null && typeof val === 'object'`: true exactly for object
references (`typeof null` is `'object'` but `null != null` is false;
`typeof` of a function reference is `'function'`). -/
def jsIsObject : JSVal → Bool
  | JSVal.objv _ => true
  | _ => false

/-- The `Env` of a container over JavaScript values: the runtime object
test, strict equality (identity of references, value equality of
primitives), and a stand-in for the external `deepequal` (never consulted on
non-object values by the change policy). -/
def jsEnv : Env JSVal :=
  { isObject := jsIsObject
    refEq := fun a b => a == b
    deepequal := fun a b => a == b
    onChangePresent := false
    onChangeThrows := false }

/-- The runtime dispatch of `setDatum`'s argument:
`typeof newValueOrFunction === 'function' ? newValueOrFunction(state.value)
: newValueOrFunction`, with function behaviour taken from `table`. -/
def jsResolveSetArg (table : Nat → JSVal → JSVal) (newValueOrFunction : JSVal) :
    SetArg JSVal :=
  match newValueOrFunction with
  | JSVal.funcv addr => SetArg.updater (table addr)
  | v => SetArg.value v

/-- `setDatum` over JavaScript runtime values: dispatch on the argument's
runtime type, then proceed as the container does. -/
def setDatumJS (table : Nat → JSVal → JSVal) (env : Env JSVal)
    (newValueOrFunction : JSVal) (force : Bool) (s : ContainerState JSVal) :
    ContainerState JSVal × List (Event JSVal) × Bool :=
  setDatum env (jsResolveSetArg table newValueOrFunction) force s

/-- A function table whose function `0` returns itself when invoked
(`function f() { return f; }`). -/
def selfTable : Nat → JSVal → JSVal :=
  fun _ _ => JSVal.funcv 0

/-!
## Decoding decimal representations

`useDatum` mints subscriber identities as `String(state.subscriberCount++)`,
i.e. `Nat.repr` of an ever-increasing counter.  To show distinct counters
yield distinct identities we decode the decimal string back to the number.
-/

/-- The decimal digits of `n`, least significant first. -/
def digitsRev (n : Nat) : List Nat :=
  if h : n < 10 then [n]
  else (n % 10) :: digitsRev (n / 10)
decreasing_by exact Nat.div_lt_self (by omega) (by omega)

/-- Decode a decimal digit character. -/
def decodeChar (c : Char) : Nat :=
  c.toNat - 48

/-!
## Concrete fixtures used by the witness theorems
-/

/-- A container environment over `Int` values: no composites, strict
equality is value equality, no `onChange` callback. -/
def intEnv : Env Int :=
  { isObject := fun _ => false
    refEq := fun a b => a == b
    deepequal := fun a b => a == b
    onChangePresent := false
    onChangeThrows := false }

/-- Like `intEnv` but with an `onChange` callback installed (and not
throwing). -/
def intEnvOnChange : Env Int :=
  { intEnv with onChangePresent := true }

/-- Like `intEnv` but with an `onChange` callback installed that throws. -/
def intEnvOnChangeThrowing : Env Int :=
  { intEnv with onChangePresent := true, onChangeThrows := true }

/-- An `Int` environment where the object test always succeeds, so the deep
branch of the change policy is exercised. -/
def intEnvDeep : Env Int :=
  { intEnv with isObject := fun _ => true }

/-- A state with three active subscriptions, all with benign
notify-callbacks. -/
def threeSubsState : ContainerState Int :=
  { value := 5
    subscriberCount := 3
    changeCount := 7
    shallow := false
    callbacks := [("0", hookCallback), ("1", hookCallback), ("2", hookCallback)] }

/-- A state where subscriber `"1"`'s notify-callback detaches subscriber
`"2"` re-entrantly during the notification pass. -/
def detachingState : ContainerState Int :=
  { value := 5
    subscriberCount := 3
    changeCount := 7
    shallow := false
    callbacks := [("1", { detaches := ["2"], throws := false }), ("2", hookCallback)] }

/-- A state where subscriber `"1"`'s notify-callback throws, with benign
subscribers before and after it. -/
def throwingState : ContainerState Int :=
  { value := 5
    subscriberCount := 3
    changeCount := 7
    shallow := false
    callbacks := [("0", hookCallback), ("1", { detaches := [], throws := true }),
                  ("2", hookCallback)] }

/-!
## Registry lemmas
-/

theorem lookupCb_mem {reg : List (String × Callback)} {k : String} {cb : Callback}
    (h : lookupCb reg k = some cb) : (k, cb) ∈ reg := by
  induction reg with
  | nil => simp [lookupCb] at h
  | cons p rest ih =>
    obtain ⟨k', cb'⟩ := p
    by_cases hk : k' = k
    · subst hk
      simp [lookupCb] at h
      subst h
      exact List.mem_cons_self _ _
    · simp [lookupCb, hk] at h
      exact List.mem_cons_of_mem _ (ih h)

theorem mem_eraseKey {reg : List (String × Callback)} {k : String}
    {p : String × Callback} (h : p ∈ eraseKey reg k) : p ∈ reg :=
  List.mem_of_mem_filter h

theorem mem_eraseKeys {reg : List (String × Callback)} {ks : List String}
    {p : String × Callback} (h : p ∈ eraseKeys reg ks) : p ∈ reg := by
  induction ks generalizing reg with
  | nil => exact h
  | cons d ds ih => exact mem_eraseKey (ih h)

theorem lookupCb_eq_none_iff {reg : List (String × Callback)} {d : String} :
    lookupCb reg d = none ↔ ∀ cb : Callback, (d, cb) ∉ reg := by
  induction reg with
  | nil => simp [lookupCb]
  | cons p rest ih =>
    obtain ⟨k', cb'⟩ := p
    by_cases hk : k' = d
    · subst hk
      constructor
      · intro h
        simp [lookupCb] at h
      · intro h
        exact absurd (List.mem_cons_self _ _) (h cb')
    · constructor
      · intro h cb hmem
        rcases List.mem_cons.mp hmem with heq | hmem'
        · injection heq with h1 h2
          exact hk h1.symm
        · simp only [lookupCb, if_neg hk] at h
          exact (ih.mp h) cb hmem'
      · intro h
        simp only [lookupCb, if_neg hk]
        exact ih.mpr (fun cb hmem => h cb (List.mem_cons_of_mem _ hmem))

theorem lookupCb_eraseKey_none {reg : List (String × Callback)} {d k : String}
    (h : lookupCb reg d = none) : lookupCb (eraseKey reg k) d = none := by
  rw [lookupCb_eq_none_iff] at h ⊢
  intro cb hmem
  exact h cb (mem_eraseKey hmem)

theorem lookupCb_eraseKeys_none {reg : List (String × Callback)} {d : String}
    {ks : List String} (h : lookupCb reg d = none) :
    lookupCb (eraseKeys reg ks) d = none := by
  rw [lookupCb_eq_none_iff] at h ⊢
  intro cb hmem
  exact h cb (mem_eraseKeys hmem)

theorem lookupCb_eraseKey_self (reg : List (String × Callback)) (d : String) :
    lookupCb (eraseKey reg d) d = none := by
  rw [lookupCb_eq_none_iff]
  intro cb hmem
  have := List.of_mem_filter hmem
  simp at this

theorem lookupCb_isSome_of_mem_keys {reg : List (String × Callback)} {k : String}
    (h : k ∈ reg.map Prod.fst) : ∃ cb, lookupCb reg k = some cb := by
  induction reg with
  | nil => simp at h
  | cons p rest ih =>
    obtain ⟨k', cb'⟩ := p
    by_cases hk : k' = k
    · exact ⟨cb', by simp [lookupCb, hk]⟩
    · have h' : k ∈ rest.map Prod.fst := by
        rcases List.mem_cons.mp h with heq | hmem
        · exact absurd heq.symm hk
        · exact hmem
      obtain ⟨cb, hcb⟩ := ih h'
      exact ⟨cb, by simp [lookupCb, hk, hcb]⟩

theorem lookupCb_of_nodup_mem {reg : List (String × Callback)} {k : String}
    {cb : Callback} (hnd : (reg.map Prod.fst).Nodup) (hmem : (k, cb) ∈ reg) :
    lookupCb reg k = some cb := by
  induction reg with
  | nil => simp at hmem
  | cons p rest ih =>
    obtain ⟨k', cb'⟩ := p
    have hnd2 := List.nodup_cons.mp hnd
    rcases List.mem_cons.mp hmem with heq | hmem'
    · injection heq with h1 h2
      subst h1
      subst h2
      simp [lookupCb]
    · have hk : k' ≠ k := by
        intro hkk
        subst hkk
        exact hnd2.1 (List.mem_map.mpr ⟨(k', cb), hmem', rfl⟩)
      simp only [lookupCb, if_neg hk]
      exact ih hnd2.2 hmem'

theorem lookupCb_append_of_none {l1 l2 : List (String × Callback)} {k : String}
    (h : lookupCb l1 k = none) : lookupCb (l1 ++ l2) k = lookupCb l2 k := by
  induction l1 with
  | nil => simp
  | cons p rest ih =>
    obtain ⟨k', cb'⟩ := p
    by_cases hk : k' = k
    · simp [lookupCb, hk] at h
    · simp only [lookupCb, if_neg hk] at h
      simpa only [List.cons_append, lookupCb, if_neg hk] using ih h

theorem lookupCb_none_of_any_false {reg : List (String × Callback)} {k : String}
    (h : reg.any (fun p => p.1 == k) = false) : lookupCb reg k = none := by
  induction reg with
  | nil => rfl
  | cons p rest ih =>
    obtain ⟨k', cb'⟩ := p
    simp only [List.any_cons, Bool.or_eq_false_iff] at h
    have hk : k' ≠ k := by
      intro hkk
      simp [hkk] at h
    simp only [lookupCb, if_neg hk]
    exact ih h.2

theorem lookupCb_map_overwrite {reg : List (String × Callback)} {k : String}
    (cb : Callback) (h : reg.any (fun p => p.1 == k) = true) :
    lookupCb (reg.map (fun p => if p.1 == k then (k, cb) else p)) k = some cb := by
  induction reg with
  | nil => simp at h
  | cons p rest ih =>
    obtain ⟨k', cb'⟩ := p
    by_cases hk : k' = k
    · subst hk
      simp only [List.map_cons]
      rw [if_pos (show (k' == k') = true by simp)]
      simp [lookupCb]
    · have hk' : (k' == k) = false := by simp [hk]
      simp only [List.any_cons] at h
      rw [hk'] at h
      simp only [Bool.false_or] at h
      have hkb : ¬ ((k' == k) = true) := by rw [hk']; simp
      simp only [List.map_cons]
      rw [if_neg hkb]
      simp only [lookupCb, if_neg hk]
      exact ih h

theorem lookupCb_insertCb_self (reg : List (String × Callback)) (k : String)
    (cb : Callback) : lookupCb (insertCb reg k cb) k = some cb := by
  by_cases h : reg.any (fun p => p.1 == k) = true
  · simpa only [insertCb, if_pos h] using lookupCb_map_overwrite cb h
  · have h' : reg.any (fun p => p.1 == k) = false := by
      cases hx : reg.any (fun p => p.1 == k)
      · rfl
      · exact absurd hx h
    rw [insertCb, if_neg h, lookupCb_append_of_none (lookupCb_none_of_any_false h')]
    simp [lookupCb]

/-!
## Notification-loop lemmas
-/

theorem isNotify_iff {V : Type} {d : String} {e : Event V} :
    isNotify d e = true ↔ e = Event.notify d := by
  cases e with
  | onChange c p => simp [isNotify]
  | notify k =>
    simp only [isNotify, beq_iff_eq, Event.notify.injEq]

theorem notifyCount_eq_zero {V : Type} {d : String} {evs : List (Event V)}
    (h : Event.notify d ∉ evs) : notifyCount d evs = 0 := by
  simp only [notifyCount, List.length_eq_zero, List.filter_eq_nil_iff]
  intro e hmem hf
  exact h (isNotify_iff.mp hf ▸ hmem)

theorem notifyCount_cons {V : Type} (d : String) (e : Event V)
    (evs : List (Event V)) :
    notifyCount d (e :: evs) =
      (if isNotify d e = true then 1 else 0) + notifyCount d evs := by
  by_cases h : isNotify d e = true
  · rw [if_pos h]
    simp only [notifyCount, List.filter_cons, h, if_true, List.length_cons]
    omega
  · have h' : isNotify d e = false := by
      cases hx : isNotify d e
      · rfl
      · exact absurd hx h
    rw [if_neg h]
    simp only [notifyCount, List.filter_cons, h']
    simp

theorem notifyCount_append {V : Type} (d : String) (evs1 evs2 : List (Event V)) :
    notifyCount d (evs1 ++ evs2) = notifyCount d evs1 + notifyCount d evs2 := by
  simp [notifyCount, List.filter_append]

theorem eraseKeys_nil (reg : List (String × Callback)) : eraseKeys reg [] = reg :=
  rfl

theorem runCallbacks_nil {V : Type} (reg : List (String × Callback)) :
    runCallbacks (V := V) [] reg = (reg, [], false) :=
  rfl

theorem runCallbacks_cons_none {V : Type} {reg : List (String × Callback)}
    {k : String} (h : lookupCb reg k = none) (ks : List String) :
    runCallbacks (V := V) (k :: ks) reg = runCallbacks (V := V) ks reg := by
  simp only [runCallbacks, h]

theorem runCallbacks_cons_throw {V : Type} {reg : List (String × Callback)}
    {k : String} {cb : Callback} (h : lookupCb reg k = some cb)
    (ht : cb.throws = true) (ks : List String) :
    runCallbacks (V := V) (k :: ks) reg = (reg, [Event.notify k], true) := by
  simp only [runCallbacks, h, ht, if_true]

theorem runCallbacks_cons_ok {V : Type} {reg : List (String × Callback)}
    {k : String} {cb : Callback} (h : lookupCb reg k = some cb)
    (ht : cb.throws = false) (ks : List String) :
    runCallbacks (V := V) (k :: ks) reg =
      ((runCallbacks (V := V) ks (eraseKeys reg cb.detaches)).1,
       Event.notify k ::
         (runCallbacks (V := V) ks (eraseKeys reg cb.detaches)).2.1,
       (runCallbacks (V := V) ks (eraseKeys reg cb.detaches)).2.2) := by
  simp only [runCallbacks, h, ht]
  simp

theorem runCallbacks_notify_mem {V : Type} {ks : List String}
    {reg : List (String × Callback)} {d : String}
    (h : Event.notify d ∈ (runCallbacks (V := V) ks reg).2.1) : d ∈ ks := by
  induction ks generalizing reg with
  | nil => simp [runCallbacks_nil] at h
  | cons k ks ih =>
    cases hlk : lookupCb reg k with
    | none =>
      rw [runCallbacks_cons_none hlk] at h
      exact List.mem_cons_of_mem _ (ih h)
    | some cb =>
      cases ht : cb.throws with
      | true =>
        rw [runCallbacks_cons_throw hlk ht] at h
        simp at h
        subst h
        exact List.mem_cons_self _ _
      | false =>
        rw [runCallbacks_cons_ok hlk ht] at h
        simp only [List.mem_cons] at h
        rcases h with h | h
        · injection h with h1
          exact h1 ▸ List.mem_cons_self _ _
        · exact List.mem_cons_of_mem _ (ih h)

theorem runCallbacks_absent {V : Type} {ks : List String}
    {reg : List (String × Callback)} {d : String}
    (h : lookupCb reg d = none) :
    Event.notify d ∉ (runCallbacks (V := V) ks reg).2.1 := by
  induction ks generalizing reg with
  | nil => simp [runCallbacks_nil]
  | cons k ks ih =>
    cases hlk : lookupCb reg k with
    | none =>
      rw [runCallbacks_cons_none hlk]
      exact ih h
    | some cb =>
      have hkd : k ≠ d := by
        intro hkd
        rw [hkd, h] at hlk
        exact Option.noConfusion hlk
      cases ht : cb.throws with
      | true =>
        rw [runCallbacks_cons_throw hlk ht]
        simp only [List.mem_singleton]
        intro hbad
        injection hbad with h1
        exact hkd h1.symm
      | false =>
        rw [runCallbacks_cons_ok hlk ht]
        simp only [List.mem_cons, not_or]
        constructor
        · intro hbad
          injection hbad with h1
          exact hkd h1.symm
        · exact ih (lookupCb_eraseKeys_none h)

theorem runCallbacks_count_le_one {V : Type} {ks : List String}
    {reg : List (String × Callback)} {d : String} (hnd : ks.Nodup) :
    notifyCount d (runCallbacks (V := V) ks reg).2.1 ≤ 1 := by
  induction ks generalizing reg with
  | nil => simp [runCallbacks_nil, notifyCount]
  | cons k ks ih =>
    have hnd2 := List.nodup_cons.mp hnd
    cases hlk : lookupCb reg k with
    | none =>
      rw [runCallbacks_cons_none hlk]
      exact ih hnd2.2
    | some cb =>
      cases ht : cb.throws with
      | true =>
        rw [runCallbacks_cons_throw hlk ht, notifyCount_cons]
        have h0 : notifyCount (V := V) d ([] : List (Event V)) = 0 := rfl
        rw [h0]
        split <;> omega
      | false =>
        rw [runCallbacks_cons_ok hlk ht, notifyCount_cons]
        by_cases hkd : isNotify (V := V) d (Event.notify k) = true
        · have hk : k = d := by simpa [isNotify] using hkd
          subst hk
          have hnotin : Event.notify (V := V) k ∉
              (runCallbacks (V := V) ks (eraseKeys reg cb.detaches)).2.1 := by
            intro hbad
            exact hnd2.1 (runCallbacks_notify_mem hbad)
          rw [if_pos hkd, notifyCount_eq_zero hnotin]
        · rw [if_neg hkd]
          simpa using ih hnd2.2

theorem runCallbacks_benign {V : Type} {reg : List (String × Callback)}
    (hb : ∀ p ∈ reg, p.2.throws = false ∧ p.2.detaches = []) :
    ∀ ks : List String, (∀ k ∈ ks, k ∈ reg.map Prod.fst) →
      runCallbacks (V := V) ks reg = (reg, ks.map Event.notify, false) := by
  intro ks
  induction ks with
  | nil => intro _; rfl
  | cons k ks ih =>
    intro hmem
    obtain ⟨cb, hcb⟩ := lookupCb_isSome_of_mem_keys (hmem k (List.mem_cons_self _ _))
    have hbk := hb (k, cb) (lookupCb_mem hcb)
    rw [runCallbacks_cons_ok hcb hbk.1]
    rw [hbk.2, eraseKeys_nil, ih (fun j hj => hmem j (List.mem_cons_of_mem _ hj))]
    simp

theorem runCallbacks_prefix_benign {V : Type} {reg : List (String × Callback)}
    {ks1 : List String}
    (hb : ∀ j ∈ ks1, ∃ cb, lookupCb reg j = some cb ∧ cb.throws = false ∧
      cb.detaches = []) (ks2 : List String) :
    runCallbacks (V := V) (ks1 ++ ks2) reg =
      ((runCallbacks (V := V) ks2 reg).1,
       ks1.map Event.notify ++ (runCallbacks (V := V) ks2 reg).2.1,
       (runCallbacks (V := V) ks2 reg).2.2) := by
  induction ks1 with
  | nil => simp
  | cons j js ih =>
    obtain ⟨cb, hcb, hthrows, hdet⟩ := hb j (List.mem_cons_self _ _)
    rw [List.cons_append, runCallbacks_cons_ok hcb hthrows]
    rw [hdet, eraseKeys_nil, ih (fun i hi => hb i (List.mem_cons_of_mem _ hi))]
    simp

theorem runCallbacks_no_throw {V : Type} {reg : List (String × Callback)}
    (hb : ∀ p ∈ reg, p.2.throws = false) (ks : List String) :
    (runCallbacks (V := V) ks reg).2.2 = false := by
  induction ks generalizing reg with
  | nil => rfl
  | cons k ks ih =>
    cases hlk : lookupCb reg k with
    | none =>
      rw [runCallbacks_cons_none hlk]
      exact ih hb
    | some cb =>
      rw [runCallbacks_cons_ok hlk (hb (k, cb) (lookupCb_mem hlk))]
      exact ih (fun p hp => hb p (mem_eraseKeys hp))

/-!
## `setDatum` and trace lemmas
-/

theorem setDatum_of_not_changed {V : Type} (env : Env V) (arg : SetArg V)
    (force : Bool) (s : ContainerState V)
    (h : computeChanged env s.shallow force (resolveArg arg s.value) s.value = false) :
    setDatum env arg force s = (s, [], false) := by
  simp [setDatum, h]

theorem setDatum_changeCount {V : Type} (env : Env V) (arg : SetArg V)
    (force : Bool) (s : ContainerState V) :
    (setDatum env arg force s).1.changeCount =
      s.changeCount +
        (if computeChanged env s.shallow force (resolveArg arg s.value) s.value = true
          then 1 else 0) := by
  by_cases h : computeChanged env s.shallow force (resolveArg arg s.value) s.value = true
  · rw [if_pos h]
    simp only [setDatum, h, if_true]
    split <;> rfl
  · have h' : computeChanged env s.shallow force (resolveArg arg s.value) s.value = false := by
      cases hx : computeChanged env s.shallow force (resolveArg arg s.value) s.value
      · rfl
      · exact absurd hx h
    rw [if_neg h, setDatum_of_not_changed env arg force s h']
    simp

theorem setDatum_subscriberCount {V : Type} (env : Env V) (arg : SetArg V)
    (force : Bool) (s : ContainerState V) :
    (setDatum env arg force s).1.subscriberCount = s.subscriberCount := by
  simp only [setDatum]
  split
  · split <;> rfl
  · rfl

theorem step_changeCount {V : Type} (env : Env V) (s : ContainerState V)
    (op : Op V) :
    (step env s op).1.changeCount =
      s.changeCount + (if opChanged env op s = true then 1 else 0) := by
  cases op with
  | set arg force => simpa [step, opChanged] using setDatum_changeCount env arg force s
  | get => simp [step, opChanged]
  | create => simp [step, opChanged, useDatumCreate]
  | effect context => simp [step, opChanged, useDatumEffect]
  | cleanup id => simp [step, opChanged, useDatumCleanup]

theorem runOps_cons {V : Type} (env : Env V) (op : Op V) (ops : List (Op V))
    (s : ContainerState V) :
    runOps env (op :: ops) s = runOps env ops (step env s op).1 :=
  rfl

theorem runOps_changeCount_le {V : Type} (env : Env V) (ops : List (Op V))
    (s : ContainerState V) :
    s.changeCount ≤ (runOps env ops s).changeCount := by
  induction ops generalizing s with
  | nil => exact Nat.le_refl _
  | cons op ops ih =>
    rw [runOps_cons]
    have h1 : s.changeCount ≤ (step env s op).1.changeCount := by
      rw [step_changeCount]
      omega
    exact Nat.le_trans h1 (ih _)

theorem step_subscriberCount_le {V : Type} (env : Env V) (s : ContainerState V)
    (op : Op V) :
    s.subscriberCount ≤ (step env s op).1.subscriberCount := by
  cases op with
  | set arg force =>
    rw [show (step env s (Op.set arg force)).1 = (setDatum env arg force s).1 from rfl]
    rw [setDatum_subscriberCount]
  | get => exact Nat.le_refl _
  | create => exact Nat.le_succ _
  | effect context => exact Nat.le_refl _
  | cleanup id => exact Nat.le_refl _

theorem runOps_subscriberCount_le {V : Type} (env : Env V) (ops : List (Op V))
    (s : ContainerState V) :
    s.subscriberCount ≤ (runOps env ops s).subscriberCount := by
  induction ops generalizing s with
  | nil => exact Nat.le_refl _
  | cons op ops ih =>
    rw [runOps_cons]
    exact Nat.le_trans (step_subscriberCount_le env s op) (ih _)

/-!
## Decimal representations are injective

`Nat.repr n = (Nat.toDigits 10 n).asString`; we relate `Nat.toDigits` to
`digitsRev` and decode digit characters back to digits.
-/

theorem digitsRev_ne_nil (n : Nat) : digitsRev n ≠ [] := by
  rw [digitsRev]
  split <;> simp

theorem digitsRev_lt (n : Nat) : ∀ d ∈ digitsRev n, d < 10 := by
  induction n using Nat.strong_induction_on with
  | _ n ih =>
    rw [digitsRev]
    split
    next h =>
      intro d hd
      simp only [List.mem_singleton] at hd
      omega
    next h =>
      intro d hd
      rcases List.mem_cons.mp hd with hd1 | hd2
      · subst hd1
        exact Nat.mod_lt _ (by omega)
      · exact ih (n / 10) (Nat.div_lt_self (by omega) (by omega)) d hd2

theorem digitsRev_small {n : Nat} (h : n < 10) : digitsRev n = [n] := by
  rw [digitsRev]
  exact dif_pos h

theorem digitsRev_large {n : Nat} (h : ¬n < 10) :
    digitsRev n = n % 10 :: digitsRev (n / 10) := by
  rw [digitsRev]
  exact dif_neg h

theorem digitsRev_inj (m : Nat) : ∀ n : Nat, digitsRev m = digitsRev n → m = n := by
  induction m using Nat.strong_induction_on with
  | _ m ih =>
    intro n h
    by_cases hm : m < 10 <;> by_cases hn : n < 10
    · rw [digitsRev_small hm, digitsRev_small hn] at h
      simpa using h
    · rw [digitsRev_small hm, digitsRev_large hn] at h
      injection h with h1 h2
      exact absurd h2.symm (digitsRev_ne_nil _)
    · rw [digitsRev_large hm, digitsRev_small hn] at h
      injection h with h1 h2
      exact absurd h2 (digitsRev_ne_nil _)
    · rw [digitsRev_large hm, digitsRev_large hn] at h
      injection h with h1 h2
      have hdiv := ih (m / 10) (Nat.div_lt_self (by omega) (by omega)) (n / 10) h2
      omega

theorem toDigitsCore_eq_digitsRev (fuel : Nat) :
    ∀ (n : Nat) (ds : List Char), n < fuel →
      Nat.toDigitsCore 10 fuel n ds =
        (digitsRev n).reverse.map Nat.digitChar ++ ds := by
  induction fuel with
  | zero => intro n ds h; omega
  | succ fuel ih =>
    intro n ds h
    simp only [Nat.toDigitsCore]
    by_cases h0 : n / 10 = 0
    · rw [if_pos h0, digitsRev_small (show n < 10 by omega)]
      simp [Nat.mod_eq_of_lt (show n < 10 by omega)]
    · rw [if_neg h0, ih (n / 10) _ (by omega)]
      rw [digitsRev_large (show ¬n < 10 by omega)]
      simp

theorem toDigits_eq_digitsRev (n : Nat) :
    Nat.toDigits 10 n = (digitsRev n).reverse.map Nat.digitChar := by
  rw [Nat.toDigits, toDigitsCore_eq_digitsRev (n + 1) n [] (by omega)]
  simp

theorem decodeChar_digitChar : ∀ d : Nat, d < 10 → decodeChar (Nat.digitChar d) = d := by
  decide

theorem map_decodeChar {l : List Nat} (h : ∀ d ∈ l, d < 10) :
    (l.map Nat.digitChar).map decodeChar = l := by
  induction l with
  | nil => rfl
  | cons d ds ih =>
    simp only [List.map_cons]
    rw [decodeChar_digitChar d (h d (List.mem_cons_self _ _)),
      ih (fun x hx => h x (List.mem_cons_of_mem _ hx))]

theorem natRepr_injective {m n : Nat} (h : Nat.repr m = Nat.repr n) : m = n := by
  rw [Nat.repr, Nat.repr] at h
  have hdata := congrArg String.data h
  simp only [List.asString] at hdata
  rw [toDigits_eq_digitsRev, toDigits_eq_digitsRev] at hdata
  have h2 := congrArg (List.map decodeChar) hdata
  rw [map_decodeChar (fun d hd => digitsRev_lt m d (List.mem_reverse.mp hd)),
    map_decodeChar (fun d hd => digitsRev_lt n d (List.mem_reverse.mp hd))] at h2
  have h3 : digitsRev m = digitsRev n := by
    have h4 := congrArg List.reverse h2
    simpa using h4
  exact digitsRev_inj m n h3

/-!
## Shape of an accepted `setDatum` call
-/

theorem setDatum_changed_normal {V : Type} (env : Env V) (arg : SetArg V)
    (force : Bool) (s : ContainerState V)
    (hch : computeChanged env s.shallow force (resolveArg arg s.value) s.value = true)
    (hoc : (env.onChangePresent && env.onChangeThrows) = false) :
    setDatum env arg force s =
      ({ s with
          value := resolveArg arg s.value
          changeCount := s.changeCount + 1
          callbacks := (runCallbacks (V := V) (s.callbacks.map Prod.fst) s.callbacks).1 },
       (if env.onChangePresent = true
          then [Event.onChange (resolveArg arg s.value) s.value] else [])
         ++ (runCallbacks (V := V) (s.callbacks.map Prod.fst) s.callbacks).2.1,
       (runCallbacks (V := V) (s.callbacks.map Prod.fst) s.callbacks).2.2) := by
  simp [setDatum, hch, hoc]

theorem setDatum_changed_onChangeThrow {V : Type} (env : Env V) (arg : SetArg V)
    (force : Bool) (s : ContainerState V)
    (hch : computeChanged env s.shallow force (resolveArg arg s.value) s.value = true)
    (hoc : (env.onChangePresent && env.onChangeThrows) = true) :
    setDatum env arg force s =
      ({ s with value := resolveArg arg s.value, changeCount := s.changeCount + 1 },
       [Event.onChange (resolveArg arg s.value) s.value], true) := by
  simp [setDatum, hch, hoc]

theorem notifyCount_onChange_list {V : Type} (d : String) (b : Bool) (nv pv : V) :
    notifyCount d (if b = true then [Event.onChange nv pv] else []) = 0 := by
  cases b <;> simp [notifyCount, isNotify]

/-!
## The claims
-/

/-- C2: the change-detection policy of `setDatum`: with `force = true`,
`changed` is true unconditionally; otherwise, in shallow mode or for a
non-object-like next value, `changed` holds iff the next value differs from
the stored value under strict equality (reference identity for composites,
value comparison for primitives); otherwise — deep mode and composite next
value — `changed` holds iff the two values are not `deepequal`,
independent of reference identity. -/
theorem computeChanged_policy {V : Type} (env : Env V) (shallow force : Bool)
    (newValue stored : V) :
    (force = true → computeChanged env shallow force newValue stored = true)
    ∧ (force = false → (shallow = true ∨ env.isObject newValue = false) →
        computeChanged env shallow force newValue stored = !env.refEq newValue stored)
    ∧ (force = false → shallow = false → env.isObject newValue = true →
        computeChanged env shallow force newValue stored
          = !env.deepequal newValue stored) := by
  refine ⟨?_, ?_, ?_⟩
  · intro h
    simp [computeChanged, h]
  · intro hf hcase
    rcases hcase with h | h <;> simp [computeChanged, hf, h]
  · intro hf hs ho
    simp [computeChanged, hf, hs, ho]

/-- Witness for C2: the three branches of the policy, each evaluated at a
concrete input. -/
theorem computeChanged_policy_witness :
    computeChanged intEnvDeep false true (1 : Int) 2 = true
    ∧ computeChanged intEnv false false (1 : Int) 2 = !(intEnv.refEq 1 2)
    ∧ computeChanged intEnvDeep false false (1 : Int) 2
        = !(intEnvDeep.deepequal 1 2) := by
  refine ⟨?_, ?_, ?_⟩
  · exact (computeChanged_policy intEnvDeep false true 1 2).1 rfl
  · exact (computeChanged_policy intEnv false false 1 2).2.1 rfl (Or.inr rfl)
  · exact (computeChanged_policy intEnvDeep false false 1 2).2.2 rfl rfl rfl

/-- C3: no-op fast path: a `setDatum` call whose change detection yields
`changed = false` returns with no observable side effects: the state (value,
`changeCount`, registry) is unchanged, no `onChange` and no notify-callback
is invoked, and nothing is thrown. -/
theorem setDatum_noop {V : Type} (env : Env V) (arg : SetArg V) (force : Bool)
    (s : ContainerState V)
    (h : computeChanged env s.shallow force (resolveArg arg s.value) s.value = false) :
    setDatum env arg force s = (s, [], false) :=
  setDatum_of_not_changed env arg force s h

/-- Witness for C3: setting the stored value `0` again (without `force`) is
a no-op. -/
theorem setDatum_noop_witness :
    setDatum intEnv (SetArg.value 0) false (initialState 0 false)
      = (initialState (0 : Int) false, [], false) :=
  setDatum_noop intEnv (SetArg.value 0) false (initialState 0 false) (by decide)

/-- C6: `changeCount` monotonicity: over every operation sequence the
counter never decreases; each single operation adds exactly one iff it is a
`setDatum` call whose change is accepted (and adds zero otherwise, so no
other operation modifies the counter); `getDatum` reads `state.value` and a
`get` step leaves the state unchanged and emits no events (no `onChange`,
no notifications). -/
theorem changeCount_monotone {V : Type} (env : Env V) (ops : List (Op V))
    (s : ContainerState V) :
    s.changeCount ≤ (runOps env ops s).changeCount
    ∧ (∀ (op : Op V) (t : ContainerState V),
        (step env t op).1.changeCount
          = t.changeCount + (if opChanged env op t = true then 1 else 0))
    ∧ (∀ t : ContainerState V, step env t Op.get = (t, []) ∧ getDatum t = t.value) :=
  ⟨runOps_changeCount_le env ops s,
   fun op t => step_changeCount env t op,
   fun _ => ⟨rfl, rfl⟩⟩

/-- C8: updater-function form: a `setDatum` call whose argument is a
function resolves the next value by invoking that function on the current
stored value; concretely, on a container initialized at `0`,
`setDatum(prior => prior + 1)` yields stored value `1`, and applying it
again yields `2`. -/
theorem setDatum_updater_form :
    (∀ (W : Type) (f : W → W) (prevState : W),
      resolveArg (SetArg.updater f) prevState = f prevState)
    ∧ getDatum (setDatum intEnv (SetArg.updater (fun prior => prior + 1)) false
        (initialState 0 false)).1 = 1
    ∧ getDatum ((setDatum intEnv (SetArg.updater (fun prior => prior + 1)) false
        ((setDatum intEnv (SetArg.updater (fun prior => prior + 1)) false
          (initialState 0 false)).1)).1) = 2 := by
  refine ⟨fun W f p => rfl, ?_, ?_⟩ <;> rfl

/-- C4: accepted-change protocol and exactly-once fan-out: a `setDatum`
call whose change is accepted (including every `force = true` call, even
for an unchanged value) increments `changeCount`, replaces the stored value
with the resolved next value, then — with a present, non-throwing
`onChange` and benign registered callbacks — invokes
`onChange(newValue, prior)` with the already-updated stored value, and then
invokes every notify-callback currently in the registry exactly once each,
in registry order, with nothing thrown and the registry unchanged. -/
theorem setDatum_accepted_protocol {V : Type} (env : Env V) (arg : SetArg V)
    (force : Bool) (s : ContainerState V)
    (hch : computeChanged env s.shallow force (resolveArg arg s.value) s.value = true)
    (hnothrow : env.onChangeThrows = false)
    (hbenign : ∀ p ∈ s.callbacks, p.2.throws = false ∧ p.2.detaches = ([] : List String)) :
    setDatum env arg force s =
      ({ s with value := resolveArg arg s.value, changeCount := s.changeCount + 1 },
       (if env.onChangePresent = true
          then [Event.onChange (resolveArg arg s.value) s.value] else [])
         ++ s.callbacks.map (fun p => Event.notify p.1),
       false) := by
  have hoc : (env.onChangePresent && env.onChangeThrows) = false := by
    rw [hnothrow]
    simp
  rw [setDatum_changed_normal env arg force s hch hoc,
    runCallbacks_benign hbenign (s.callbacks.map Prod.fst) (fun k hk => hk)]
  simp [List.map_map, Function.comp]

/-- Witness for C4: with three active subscriptions and `force = true` on an
unchanged value, one accepted set fires `onChange` once and each of the
three notify-callbacks exactly once, in order, with nothing thrown. -/
theorem setDatum_accepted_protocol_witness :
    setDatum intEnvOnChange (SetArg.value 5) true threeSubsState =
      ({ threeSubsState with value := 5, changeCount := 8 },
       [Event.onChange 5 5, Event.notify "0", Event.notify "1", Event.notify "2"],
       false) := by
  rw [setDatum_accepted_protocol intEnvOnChange (SetArg.value 5) true threeSubsState
    (by decide) rfl (by decide)]
  decide

/-- C1: the late-registration race: however many container operations run
between a hook instance's creation (which records the `changeCount`
baseline) and its registration becoming active, the effect registers the
hook's notify-callback and immediately requests exactly one re-render iff
the live `changeCount` differs from the recorded baseline (and none when
they agree). -/
theorem useDatumEffect_late_registration {V : Type} (env : Env V)
    (ops : List (Op V)) (s : ContainerState V) :
    (useDatumEffect (runOps env ops (useDatumCreate s).1) (useDatumCreate s).2).2
      = (if (runOps env ops (useDatumCreate s).1).changeCount
            ≠ (useDatumCreate s).2.changeCount then 1 else 0)
    ∧ lookupCb
        (useDatumEffect (runOps env ops (useDatumCreate s).1) (useDatumCreate s).2).1.callbacks
        (useDatumCreate s).2.id = some hookCallback := by
  constructor
  · simp only [useDatumEffect]
    have hle : (useDatumCreate s).2.changeCount
        ≤ (runOps env ops (useDatumCreate s).1).changeCount :=
      runOps_changeCount_le env ops (useDatumCreate s).1
    by_cases heq : (runOps env ops (useDatumCreate s).1).changeCount
        = (useDatumCreate s).2.changeCount
    · rw [heq]
      simp
    · have hgt : (useDatumCreate s).2.changeCount
          < (runOps env ops (useDatumCreate s).1).changeCount :=
        Nat.lt_of_le_of_ne hle (fun h => heq h.symm)
      rw [if_pos hgt, if_pos heq]
  · exact lookupCb_insertCb_self _ _ _

/-- A notify-callback registered under an identity absent from the registry
when a `setDatum` call starts is never invoked by that call. -/
theorem setDatum_notifyCount_zero_of_absent {V : Type} (env : Env V)
    (arg : SetArg V) (force : Bool) (s : ContainerState V) (d : String)
    (h : lookupCb s.callbacks d = none) :
    notifyCount d (setDatum env arg force s).2.1 = 0 := by
  by_cases hch : computeChanged env s.shallow force (resolveArg arg s.value) s.value = true
  · by_cases hoc : (env.onChangePresent && env.onChangeThrows) = true
    · rw [setDatum_changed_onChangeThrow env arg force s hch hoc]
      simp [notifyCount, isNotify]
    · have hoc' : (env.onChangePresent && env.onChangeThrows) = false := by
        cases hx : env.onChangePresent && env.onChangeThrows
        · rfl
        · exact absurd hx hoc
      rw [setDatum_changed_normal env arg force s hch hoc']
      dsimp only
      rw [notifyCount_append, notifyCount_onChange_list,
        notifyCount_eq_zero (runCallbacks_absent h)]
  · have hch' : computeChanged env s.shallow force (resolveArg arg s.value) s.value
        = false := by
      cases hx : computeChanged env s.shallow force (resolveArg arg s.value) s.value
      · rfl
      · exact absurd hx hch
    rw [setDatum_of_not_changed env arg force s hch']
    rfl

/-- During one `setDatum` call no notify-callback is invoked more than
once, provided the registry keys are distinct. -/
theorem setDatum_notifyCount_le_one {V : Type} (env : Env V) (arg : SetArg V)
    (force : Bool) (s : ContainerState V) (d : String)
    (hnd : (s.callbacks.map Prod.fst).Nodup) :
    notifyCount d (setDatum env arg force s).2.1 ≤ 1 := by
  by_cases hch : computeChanged env s.shallow force (resolveArg arg s.value) s.value = true
  · by_cases hoc : (env.onChangePresent && env.onChangeThrows) = true
    · rw [setDatum_changed_onChangeThrow env arg force s hch hoc]
      simp [notifyCount, isNotify]
    · have hoc' : (env.onChangePresent && env.onChangeThrows) = false := by
        cases hx : env.onChangePresent && env.onChangeThrows
        · rfl
        · exact absurd hx hoc
      rw [setDatum_changed_normal env arg force s hch hoc']
      dsimp only
      rw [notifyCount_append, notifyCount_onChange_list]
      simpa using runCallbacks_count_le_one hnd
  · have hch' : computeChanged env s.shallow force (resolveArg arg s.value) s.value
        = false := by
      cases hx : computeChanged env s.shallow force (resolveArg arg s.value) s.value
      · rfl
      · exact absurd hx hch
    rw [setDatum_of_not_changed env arg force s hch']
    simp [notifyCount]

/-- C5: detach is immediate and final: within one `setDatum` notification
pass no subscriber is notified twice, even if the registry is mutated by a
callback detaching re-entrantly (and the iteration is total, so it cannot
fail); a subscriber whose registry entry is already gone when the pass
starts is not notified at all; and after `useDatumCleanup` removes a
subscriber, no subsequent `setDatum` call ever invokes its
notify-callback. -/
theorem setDatum_detach_is_final {V : Type} (env : Env V) (arg : SetArg V)
    (force : Bool) (s : ContainerState V) (d : String)
    (hnd : (s.callbacks.map Prod.fst).Nodup) :
    notifyCount d (setDatum env arg force s).2.1 ≤ 1
    ∧ (lookupCb s.callbacks d = none →
        notifyCount d (setDatum env arg force s).2.1 = 0)
    ∧ (∀ (arg2 : SetArg V) (force2 : Bool),
        notifyCount d (setDatum env arg2 force2 (useDatumCleanup s d)).2.1 = 0) := by
  refine ⟨setDatum_notifyCount_le_one env arg force s d hnd,
    fun h => setDatum_notifyCount_zero_of_absent env arg force s d h,
    fun arg2 force2 => setDatum_notifyCount_zero_of_absent env arg2 force2
      (useDatumCleanup s d) d ?_⟩
  exact lookupCb_eraseKey_self s.callbacks d

/-- Witness for C5: subscriber `"1"` detaches subscriber `"2"` during the
pass — `"2"` is not notified twice — and an identity absent from the
registry receives no notification. -/
theorem setDatum_detach_is_final_witness :
    notifyCount "2" (setDatum intEnv (SetArg.value 9) false detachingState).2.1 ≤ 1
    ∧ notifyCount "9" (setDatum intEnv (SetArg.value 9) false detachingState).2.1 = 0 :=
  ⟨(setDatum_detach_is_final intEnv (SetArg.value 9) false detachingState "2"
      (by decide)).1,
   (setDatum_detach_is_final intEnv (SetArg.value 9) false detachingState "9"
      (by decide)).2.1 (by decide)⟩

/-- C7: callback exception propagation: the container catches nothing.
(1) If a present `onChange` throws, the exception reaches the `setDatum`
caller with the value and `changeCount` already updated and no subscriber
notified.  (2) If a notify-callback throws (after a benign prefix of the
registry, keys distinct), every subscriber before it was notified, it was
invoked, no later subscriber is notified, and the exception reaches the
caller.  (3) The container itself raises no errors: when `onChange` does
not throw and no registered callback throws, nothing propagates. -/
theorem setDatum_exception_propagation {V : Type} :
    (∀ (env : Env V) (arg : SetArg V) (force : Bool) (s : ContainerState V),
      computeChanged env s.shallow force (resolveArg arg s.value) s.value = true →
      env.onChangePresent = true → env.onChangeThrows = true →
      setDatum env arg force s =
        ({ s with value := resolveArg arg s.value, changeCount := s.changeCount + 1 },
         [Event.onChange (resolveArg arg s.value) s.value], true))
    ∧ (∀ (env : Env V) (arg : SetArg V) (force : Bool) (s : ContainerState V)
        (pre : List (String × Callback)) (k : String) (cb : Callback)
        (post : List (String × Callback)),
        s.callbacks = pre ++ (k, cb) :: post →
        (s.callbacks.map Prod.fst).Nodup →
        (∀ p ∈ pre, p.2.throws = false ∧ p.2.detaches = ([] : List String)) →
        cb.throws = true →
        computeChanged env s.shallow force (resolveArg arg s.value) s.value = true →
        env.onChangeThrows = false →
        setDatum env arg force s =
          ({ s with value := resolveArg arg s.value, changeCount := s.changeCount + 1 },
           (if env.onChangePresent = true
              then [Event.onChange (resolveArg arg s.value) s.value] else [])
             ++ (pre.map (fun p => Event.notify p.1) ++ [Event.notify k]),
           true))
    ∧ (∀ (env : Env V) (arg : SetArg V) (force : Bool) (s : ContainerState V),
        env.onChangeThrows = false →
        (∀ p ∈ s.callbacks, p.2.throws = false) →
        (setDatum env arg force s).2.2 = false) := by
  refine ⟨?_, ?_, ?_⟩
  · intro env arg force s hch hocp hoct
    exact setDatum_changed_onChangeThrow env arg force s hch (by rw [hocp, hoct]; rfl)
  · intro env arg force s pre k cb post hsplit hnd hpre hth hch hoct
    have hoc : (env.onChangePresent && env.onChangeThrows) = false := by
      rw [hoct]
      simp
    rw [setDatum_changed_normal env arg force s hch hoc]
    have hks : s.callbacks.map Prod.fst
        = pre.map Prod.fst ++ k :: post.map Prod.fst := by
      rw [hsplit]
      simp
    have hbenign2 : ∀ j ∈ pre.map Prod.fst, ∃ cb2, lookupCb s.callbacks j = some cb2
        ∧ cb2.throws = false ∧ cb2.detaches = [] := by
      intro j hj
      obtain ⟨p, hp, hpj⟩ := List.mem_map.mp hj
      refine ⟨p.2, ?_, (hpre p hp).1, (hpre p hp).2⟩
      have hmem : (j, p.2) ∈ s.callbacks := by
        rw [hsplit]
        refine List.mem_append_left _ ?_
        have : (j, p.2) = p := by
          rw [← hpj]
        rw [this]
        exact hp
      exact lookupCb_of_nodup_mem hnd hmem
    have hlk : lookupCb s.callbacks k = some cb := by
      apply lookupCb_of_nodup_mem hnd
      rw [hsplit]
      exact List.mem_append_right _ (List.mem_cons_self _ _)
    rw [hks, runCallbacks_prefix_benign hbenign2 (k :: post.map Prod.fst),
      runCallbacks_cons_throw hlk hth]
    dsimp only
    simp [List.map_map, Function.comp]
  · intro env arg force s hoct hb
    by_cases hch : computeChanged env s.shallow force (resolveArg arg s.value) s.value = true
    · have hoc : (env.onChangePresent && env.onChangeThrows) = false := by
        rw [hoct]
        simp
      rw [setDatum_changed_normal env arg force s hch hoc]
      exact runCallbacks_no_throw hb _
    · have hch' : computeChanged env s.shallow force (resolveArg arg s.value) s.value
          = false := by
        cases hx : computeChanged env s.shallow force (resolveArg arg s.value) s.value
        · rfl
        · exact absurd hx hch
      rw [setDatum_of_not_changed env arg force s hch']

/-- Witness for C7: a throwing `onChange` aborts before any notification; a
throwing notify-callback (`"1"`) stops the pass before `"2"`; with benign
callbacks nothing propagates. -/
theorem setDatum_exception_propagation_witness :
    setDatum intEnvOnChangeThrowing (SetArg.value 9) false threeSubsState
      = ({ threeSubsState with value := 9, changeCount := 8 },
         [Event.onChange 9 5], true)
    ∧ setDatum intEnvOnChange (SetArg.value 9) false throwingState
      = ({ throwingState with value := 9, changeCount := 8 },
         [Event.onChange 9 5, Event.notify "0", Event.notify "1"], true)
    ∧ (setDatum intEnv (SetArg.value 9) false threeSubsState).2.2 = false := by
  refine ⟨?_, ?_, ?_⟩
  · exact ((setDatum_exception_propagation (V := Int)).1 intEnvOnChangeThrowing
      (SetArg.value 9) false threeSubsState (by decide) rfl rfl).trans (by decide)
  · exact ((setDatum_exception_propagation (V := Int)).2.1 intEnvOnChange
      (SetArg.value 9) false throwingState [("0", hookCallback)] "1"
      { detaches := [], throws := true } [("2", hookCallback)] rfl (by decide)
      (by decide) rfl (by decide) rfl).trans (by decide)
  · exact (setDatum_exception_propagation (V := Int)).2.2 intEnv (SetArg.value 9)
      false threeSubsState rfl (by decide)

/-- C9 counterexample: the claim that no input makes `setDatum` store a
function value as the datum itself fails: for the self-returning function
`f = function f() { return f; }` (function reference `0` in `selfTable`),
`setDatum(f)` invokes `f` — whose result is `f` itself — and stores it, so
the datum afterwards is exactly the function value that was passed in. -/
theorem setDatumJS_stores_function_counterexample :
    getDatum (setDatumJS selfTable jsEnv (JSVal.funcv 0) false
      (initialState (JSVal.numv 0) false)).1 = JSVal.funcv 0 := by
  decide

/-- C9 (amended): `setDatum` branches on the runtime type of its argument:
every call with a function argument resolves the next value by invoking
that function on the current stored value, and the stored value afterwards
is either that invocation's result or (when the change is rejected) the old
value — so an argument is never stored without being invoked, though the
invocation's result, and hence the stored datum, may itself be a function
value. -/
theorem setDatumJS_function_dispatch (table : Nat → JSVal → JSVal)
    (env : Env JSVal) (addr : Nat) (force : Bool) (s : ContainerState JSVal) :
    resolveArg (jsResolveSetArg table (JSVal.funcv addr)) s.value
      = table addr s.value
    ∧ ((setDatumJS table env (JSVal.funcv addr) force s).1.value
          = table addr s.value
        ∨ (setDatumJS table env (JSVal.funcv addr) force s).1.value = s.value) := by
  refine ⟨rfl, ?_⟩
  rw [setDatumJS]
  by_cases hch : computeChanged env s.shallow force
      (resolveArg (jsResolveSetArg table (JSVal.funcv addr)) s.value) s.value = true
  · left
    simp only [setDatum, hch, if_true]
    split <;> rfl
  · right
    have hch' : computeChanged env s.shallow force
        (resolveArg (jsResolveSetArg table (JSVal.funcv addr)) s.value) s.value
          = false := by
      cases hx : computeChanged env s.shallow force
          (resolveArg (jsResolveSetArg table (JSVal.funcv addr)) s.value) s.value
      · rfl
      · exact absurd hx hch
    rw [setDatum_of_not_changed env _ force s hch']

/-- C10: subscriber identities are never reused: the identity counter only
ever increases across any operation sequence, a hook creation increments it
by exactly one, and the identities minted by any two creations — however
many operations, including detaches, separate them — are distinct. -/
theorem subscriber_ids_never_reused {V : Type} (env : Env V)
    (ops : List (Op V)) (s : ContainerState V) :
    (useDatumCreate s).2.id
        ≠ (useDatumCreate (runOps env ops (useDatumCreate s).1)).2.id
    ∧ s.subscriberCount ≤ (runOps env ops s).subscriberCount
    ∧ (useDatumCreate s).1.subscriberCount = s.subscriberCount + 1 := by
  refine ⟨?_, runOps_subscriberCount_le env ops s, rfl⟩
  intro h
  have hinj := natRepr_injective h
  have hle : (useDatumCreate s).1.subscriberCount
      ≤ (runOps env ops (useDatumCreate s).1).subscriberCount :=
    runOps_subscriberCount_le env ops (useDatumCreate s).1
  have hstep : (useDatumCreate s).1.subscriberCount = s.subscriberCount + 1 := rfl
  omega

end UseDatumModel
